import Mathlib

/-!
# Image upload service: the `POST /upload` pipeline and `GET /images`

A shallow embedding of `server.js`.  The handler of `POST /upload` is a
sequential composition of library calls (type sniffing, image decoding,
resizing, file writes) around one read-modify-write of the JSON ledger.
Library calls whose code is not part of the repository are fields of `Env`;
each may resolve or throw.  The file system is the explicit state `Disk`.
-/

namespace ImageUpload

/-- Raw bytes of a buffer. -/
abbrev Bytes := List Nat

/-- One element of `req.files`, as multer's memory storage provides it. -/
structure UploadFile where
  originalname : String
  mimetype : String
  size : Nat
  buffer : Bytes
  deriving DecidableEq, Repr

/-- The object `fileTypeFromBuffer` resolves to when it recognises the bytes. -/
structure FileTypeResult where
  ext : String
  mime : String
  deriving DecidableEq, Repr

/-- The fields of sharp's `metadata()` result the handler reads; `none` is
JavaScript's `undefined`. -/
structure SharpMetadata where
  width : Option Nat
  height : Option Nat
  deriving DecidableEq, Repr

/-- The object literal pushed on the ledger (lines 79-89); `none` is `null`. -/
structure UploadRecord where
  id : String
  filename : String
  thumb : String
  originalName : String
  mime : String
  size : Nat
  width : Option Nat
  height : Option Nat
  createdAt : String
  deriving DecidableEq, Repr

/-- What a stored file holds: the bytes given to `fs.writeFile`, or the output
of a sharp pipeline described by its input and its resize parameters. -/
inductive Content where
  | raw (bytes : Bytes)
  | resizedInside (input : Bytes) (width height : Nat)
  | resizedCover (input : Bytes) (width height : Nat)
  deriving DecidableEq, Repr

/-- A value `JSON.parse` can return for the ledger file: an array of records,
or some other JSON value (which has no `unshift`). -/
inductive Parsed where
  | array (records : List UploadRecord)
  | other (text : String)
  deriving DecidableEq, Repr

/-- State of `images.json`: `fs.readFile` rejects, `JSON.parse` throws, or the
text is the JSON of a value. -/
inductive LedgerFile where
  | unreadable
  | malformed (text : String)
  | json (value : Parsed)
  deriving DecidableEq, Repr

/-- The file system: the ledger file and the image files whose write has
resolved, the most recent write first (a later write to a path shadows an
earlier one). -/
structure Disk where
  ledger : LedgerFile
  files : List (String × Content)
  deriving DecidableEq, Repr

/-- Body of an HTTP response. -/
inductive Body where
  | text (s : String)
  | okTrue
  | data (value : Parsed)
  deriving DecidableEq, Repr

/-- An HTTP response. -/
structure Response where
  status : Nat
  body : Body
  deriving DecidableEq, Repr

/-- Outcome of the call `fs.writeFile(METADATA_FILE, ...)` of line 92.  The
call opens the file for writing, which truncates it, and then writes the new
text.  It resolves; or it rejects before the file is opened, which leaves the
file untouched; or it rejects after the file has been opened, which leaves the
part of the new text written until then (possibly nothing), a text cut short. -/
inductive LedgerWrite where
  | resolved
  | rejectedAtOpen
  | rejectedAfterOpen (written : String)
  deriving DecidableEq, Repr

/-- The library calls of one request.  The `Nat` argument is the position in
`req.files` of the file being processed, so that the same call may behave
differently at different moments of the request.  A `Bool` result tells
whether the promise resolved (`true`) or rejected (`false`); an image file
whose write is rejected is not listed in `Disk.files`. -/
structure Env where
  fileTypeFromBuffer : Nat → Bytes → Except String (Option FileTypeResult)
  mimeExtension : String → Option String
  uuidv4 : Nat → String
  randomBytesHex : Nat → String
  sharpMetadata : Nat → Bytes → Except String SharpMetadata
  resizeToFile : Nat → String → Bool
  writeFile : Nat → String → Bool
  thumbToFile : Nat → String → Bool
  toISOString : Nat → String
  writeLedger : LedgerWrite

def UPLOAD_DIR : String := "uploads"

def THUMB_DIR : String := "uploads/thumbs"

def maxDim : Nat := 2000

/-- The test `s.startsWith('image/')`. -/
def startsWithImage (s : String) : Bool :=
  "image/".toList.isPrefixOf s.toList

/-- The multer `fileFilter` (lines 36-40): `true` when the file is let through. -/
def fileFilter (file : UploadFile) : Bool :=
  startsWithImage file.mimetype

/-- The expression `d && d > bound` read as a condition: `undefined` and `0`
are falsy. -/
def exceeds (d : Option Nat) (bound : Nat) : Bool :=
  match d with
  | none => false
  | some n => if n = 0 then false else decide (bound < n)

/-- The condition of line 66. -/
def needsResize (metadataInfo : SharpMetadata) : Bool :=
  exceeds metadataInfo.width maxDim || exceeds metadataInfo.height maxDim

/-- The expression `d || null`. -/
def orNull (d : Option Nat) : Option Nat :=
  match d with
  | none => none
  | some n => if n = 0 then none else some n

/-- The expression `mime.extension(ft.mime) || 'jpg'`. -/
def extensionOrJpg (e : Option String) : String :=
  match e with
  | none => "jpg"
  | some s => if s = "" then "jpg" else s

/-- The stored filename of line 59. -/
def storedName (env : Env) (i : Nat) (ft : FileTypeResult) : String :=
  env.randomBytesHex i ++ "." ++ extensionOrJpg (env.mimeExtension ft.mime)

/-- The record of lines 79-89. -/
def buildRecord (env : Env) (i : Nat) (f : UploadFile) (ft : FileTypeResult)
    (metadataInfo : SharpMetadata) : UploadRecord :=
  { id := env.uuidv4 i
    filename := storedName env i ft
    thumb := "thumb-" ++ storedName env i ft
    originalName := f.originalname
    mime := ft.mime
    size := f.size
    width := orNull metadataInfo.width
    height := orNull metadataInfo.height
    createdAt := env.toISOString i }

/-- A successful write of `content` at `path`. -/
def Disk.write (disk : Disk) (path : String) (content : Content) : Disk :=
  { disk with files := (path, content) :: disk.files }

/-- The call `metadata.unshift(record)`: a `TypeError` when the parsed ledger
is not an array. -/
def unshift (metadata : Parsed) (record : UploadRecord) : Except String Parsed :=
  match metadata with
  | .array records => .ok (.array (record :: records))
  | .other _ => .error "TypeError: metadata.unshift is not a function"

/-- Lines 63-71: decide between the resize path and the plain write, and store
the full-size variant at `filepath`. -/
def storeFull (env : Env) (i : Nat) (f : UploadFile) (metadataInfo : SharpMetadata)
    (filepath : String) (disk : Disk) : Disk × Except String Unit :=
  if needsResize metadataInfo then
    if env.resizeToFile i filepath then
      (disk.write filepath (.resizedInside f.buffer maxDim maxDim), .ok ())
    else (disk, .error "resize toFile rejected")
  else
    if env.writeFile i filepath then
      (disk.write filepath (.raw f.buffer), .ok ())
    else (disk, .error "writeFile rejected")

/-- The body of the `for` loop (lines 49-89) for the file `f` at position `i`.
The result is the file system afterwards and either the ledger value after
the iteration or the error thrown. -/
def processFile (env : Env) (i : Nat) (f : UploadFile) (metadata : Parsed) (disk : Disk) :
    Disk × Except String Parsed :=
  match env.fileTypeFromBuffer i f.buffer with
  | .error e => (disk, .error e)
  | .ok none => (disk, .ok metadata)
  | .ok (some ft) =>
    if !startsWithImage ft.mime then (disk, .ok metadata)
    else
      let filename := storedName env i ft
      let filepath := UPLOAD_DIR ++ "/" ++ filename
      match env.sharpMetadata i f.buffer with
      | .error e => (disk, .error e)
      | .ok metadataInfo =>
        match storeFull env i f metadataInfo filepath disk with
        | (disk1, .error e) => (disk1, .error e)
        | (disk1, .ok _) =>
          let thumbName := "thumb-" ++ filename
          let thumbPath := THUMB_DIR ++ "/" ++ thumbName
          if env.thumbToFile i thumbPath then
            (disk1.write thumbPath (.resizedCover f.buffer 300 300),
              unshift metadata (buildRecord env i f ft metadataInfo))
          else (disk1, .error "thumbnail toFile rejected")

/-- The loop `for (const f of req.files)`, from position `i` on. -/
def processFiles (env : Env) : Nat → List UploadFile → Parsed → Disk →
    Disk × Except String Parsed
  | _, [], metadata, disk => (disk, .ok metadata)
  | i, f :: rest, metadata, disk =>
    match processFile env i f metadata disk with
    | (disk1, .error e) => (disk1, .error e)
    | (disk1, .ok metadata1) => processFiles env (i + 1) rest metadata1 disk1

/-- The expression `JSON.parse(await fs.readFile(METADATA_FILE, 'utf8'))`. -/
def readLedger (ledger : LedgerFile) : Except String Parsed :=
  match ledger with
  | .unreadable => .error "readFile rejected"
  | .malformed _ => .error "SyntaxError"
  | .json value => .ok value

def serverError : Response := ⟨500, .text "服务器错误"⟩

def noFiles : Response := ⟨400, .text "没有文件"⟩

/-- Lines 92-93, and the `catch` block when the write of line 92 rejects:
`disk1` and `metadata1` are the file system and the ledger value after the
loop. -/
def finishRequest (env : Env) (disk1 : Disk) (metadata1 : Parsed) : Response × Disk :=
  match env.writeLedger with
  | .resolved => (⟨200, .okTrue⟩, { disk1 with ledger := .json metadata1 })
  | .rejectedAtOpen => (serverError, disk1)
  | .rejectedAfterOpen written => (serverError, { disk1 with ledger := .malformed written })

/-- The handler of `POST /upload` (lines 43-98).  `files` is `req.files`,
`none` when it is absent. -/
def postUpload (env : Env) (disk : Disk) (files : Option (List UploadFile)) :
    Response × Disk :=
  match files with
  | none => (noFiles, disk)
  | some [] => (noFiles, disk)
  | some (f :: rest) =>
    match readLedger disk.ledger with
    | .error _ => (serverError, disk)
    | .ok metadata =>
      match processFiles env 0 (f :: rest) metadata disk with
      | (disk1, .error _) => (serverError, disk1)
      | (disk1, .ok metadata1) => finishRequest env disk1 metadata1

/-- The handler of `GET /images` (lines 101-108). -/
def getImages (disk : Disk) : Response :=
  match readLedger disk.ledger with
  | .error _ => ⟨500, .text "读取失败"⟩
  | .ok value => ⟨200, .data value⟩

/-! ## Specification-side definitions -/

/-- The sniffed type of `f` when it is present and starts with `image/`. -/
def sniffedImage (env : Env) (i : Nat) (f : UploadFile) : Option FileTypeResult :=
  match env.fileTypeFromBuffer i f.buffer with
  | .ok (some ft) => if startsWithImage ft.mime then some ft else none
  | _ => none

/-- The files of the batch whose sniffed type is an image type, in request
order, each with its sniffed type. -/
def acceptedFiles (env : Env) : Nat → List UploadFile → List (UploadFile × FileTypeResult)
  | _, [] => []
  | i, f :: rest =>
    match sniffedImage env i f with
    | some ft => (f, ft) :: acceptedFiles env (i + 1) rest
    | none => acceptedFiles env (i + 1) rest

/-- The records of the accepted files, in request order. -/
def builtRecords (env : Env) : Nat → List UploadFile → List UploadRecord
  | _, [] => []
  | i, f :: rest =>
    match sniffedImage env i f, env.sharpMetadata i f.buffer with
    | some ft, .ok metadataInfo =>
      buildRecord env i f ft metadataInfo :: builtRecords env (i + 1) rest
    | _, _ => builtRecords env (i + 1) rest

/-- No library call made for the file at position `i` throws: sniffing
resolves and, when the file is accepted, decoding, the write of the full-size
variant and the write of the thumbnail all resolve. -/
def fileStepsOk (env : Env) (i : Nat) (f : UploadFile) : Bool :=
  match env.fileTypeFromBuffer i f.buffer with
  | .error _ => false
  | .ok none => true
  | .ok (some ft) =>
    if !startsWithImage ft.mime then true
    else
      match env.sharpMetadata i f.buffer with
      | .error _ => false
      | .ok metadataInfo =>
        (if needsResize metadataInfo then
            env.resizeToFile i (UPLOAD_DIR ++ "/" ++ storedName env i ft)
          else env.writeFile i (UPLOAD_DIR ++ "/" ++ storedName env i ft))
        && env.thumbToFile i (THUMB_DIR ++ "/" ++ ("thumb-" ++ storedName env i ft))

/-- No library call throws for any file of the list, whose first file is at
position `i`. -/
def allStepsOk (env : Env) : Nat → List UploadFile → Bool
  | _, [] => true
  | i, f :: rest => fileStepsOk env i f && allStepsOk env (i + 1) rest

/-- No step before the final write of the ledger raises an error: the ledger
file is read and parsed, no library call throws for any file, and `unshift`
exists whenever it is called. -/
def stepsBeforeWriteOk (env : Env) (disk : Disk) (files : List UploadFile) : Bool :=
  match readLedger disk.ledger with
  | .error _ => false
  | .ok (.array _) => allStepsOk env 0 files
  | .ok (.other _) => allStepsOk env 0 files && (acceptedFiles env 0 files).isEmpty

/-- The final write of the ledger resolves. -/
def LedgerWrite.isResolved : LedgerWrite → Bool
  | .resolved => true
  | _ => false

/-- No step of the request raises an error: none before the final write of the
ledger, and that write resolves. -/
def requestOk (env : Env) (disk : Disk) (files : List UploadFile) : Bool :=
  stepsBeforeWriteOk env disk files && env.writeLedger.isResolved

/-- The records a ledger file lists (none when it does not hold an array). -/
def LedgerFile.records : LedgerFile → List UploadRecord
  | .json (.array records) => records
  | _ => []

/-- The quotient `a / b` rounded to the nearest whole number, halves upwards. -/
def roundDiv (a b : Nat) : Nat :=
  (2 * a + b) / (2 * b)

/-- Modelled from the spec: the resize computation of the sharp library, which
the handler calls as `resize` with `fit: 'inside'` and whose code is not part
of the repository.  Following section 4.2, an image that already fits in the
square box of side `box` is not enlarged; otherwise both dimensions are scaled
by the one factor that brings the larger dimension to `box`, without cropping,
and each is rounded to a whole pixel; a side of the variant is never less than
one pixel. -/
def resizeInside (box w h : Nat) : Nat × Nat :=
  if w ≤ box ∧ h ≤ box then (w, h)
  else if h ≤ w then (max 1 (roundDiv (w * box) w), max 1 (roundDiv (h * box) w))
  else (max 1 (roundDiv (w * box) h), max 1 (roundDiv (h * box) h))

/-! ## Sample requests -/

def jpegBytes : Bytes := [255, 216, 255, 224]

def pngBytes : Bytes := [137, 80, 78, 71]

def textBytes : Bytes := [104, 101, 108, 108, 111]

/-- A run in which every library call resolves: JPEG buffers decode to
4000 x 3000, every other accepted buffer to 640 x 480. -/
def sampleEnv : Env where
  fileTypeFromBuffer := fun _ b =>
    if b = jpegBytes then .ok (some ⟨"jpg", "image/jpeg"⟩)
    else if b = pngBytes then .ok (some ⟨"png", "image/png"⟩)
    else .ok none
  mimeExtension := fun s =>
    if s = "image/jpeg" then some "jpeg" else if s = "image/png" then some "png" else none
  uuidv4 := fun i => match i with | 0 => "id-a" | 1 => "id-b" | _ => "id-c"
  randomBytesHex := fun i => match i with | 0 => "0a" | 1 => "1b" | _ => "2c"
  sharpMetadata := fun _ b =>
    if b = jpegBytes then .ok ⟨some 4000, some 3000⟩ else .ok ⟨some 640, some 480⟩
  resizeToFile := fun _ _ => true
  writeFile := fun _ _ => true
  thumbToFile := fun _ _ => true
  toISOString := fun _ => "2024-01-01T00:00:00.000Z"
  writeLedger := .resolved

/-- A later run, with other random names and another clock. -/
def laterEnv : Env :=
  { sampleEnv with
    uuidv4 := fun i => match i with | 0 => "id-x" | _ => "id-y"
    randomBytesHex := fun i => match i with | 0 => "7e" | _ => "8f"
    toISOString := fun _ => "2024-01-02T00:00:00.000Z" }

/-- A run in which the decoder throws on PNG buffers. -/
def brokenDecoderEnv : Env :=
  { sampleEnv with
    sharpMetadata := fun _ b =>
      if b = pngBytes then .error "Input buffer contains unsupported image format"
      else .ok ⟨some 4000, some 3000⟩ }

/-- A run in which every step resolves except the final write of the ledger,
rejected after the file has been opened and before any text is written. -/
def truncatingEnv : Env :=
  { sampleEnv with writeLedger := .rejectedAfterOpen "" }

/-- A run in which the decoder reports a width but no height. -/
def widthOnlyEnv : Env :=
  { sampleEnv with sharpMetadata := fun _ _ => .ok ⟨some 800, none⟩ }

def photo : UploadFile := ⟨"photo.jpg", "image/jpeg", 4, jpegBytes⟩

/-- A text file renamed and declared as an image. -/
def notes : UploadFile := ⟨"notes.png", "image/png", 5, textBytes⟩

def icon : UploadFile := ⟨"icon.png", "image/png", 4, pngBytes⟩

def emptyDisk : Disk := ⟨.json (.array []), []⟩

/-- A record of an earlier upload. -/
def earlierRecord : UploadRecord :=
  ⟨"id-0", "ff.png", "thumb-ff.png", "first.png", "image/png", 7, some 10, some 10,
    "2023-12-31T00:00:00.000Z"⟩

/-- A file system whose ledger lists one earlier upload. -/
def earlierDisk : Disk := ⟨.json (.array [earlierRecord]), []⟩

/-! ## Lemmas on the loop -/

theorem storeFull_ledger (env : Env) (i : Nat) (f : UploadFile) (m : SharpMetadata)
    (p : String) (disk : Disk) : (storeFull env i f m p disk).1.ledger = disk.ledger := by
  unfold storeFull
  split <;> split <;> rfl

theorem processFile_ledger (env : Env) (i : Nat) (f : UploadFile) (md : Parsed) (disk : Disk) :
    (processFile env i f md disk).1.ledger = disk.ledger := by
  unfold processFile
  cases h1 : env.fileTypeFromBuffer i f.buffer with
  | error e => rfl
  | ok o =>
    cases o with
    | none => rfl
    | some ft =>
      simp only []
      cases h2 : startsWithImage ft.mime with
      | false => rfl
      | true =>
        simp only [Bool.not_true, Bool.false_eq_true, if_false]
        cases h3 : env.sharpMetadata i f.buffer with
        | error e => rfl
        | ok m =>
          simp only []
          have h := storeFull_ledger env i f m (UPLOAD_DIR ++ "/" ++ storedName env i ft) disk
          cases h4 : storeFull env i f m (UPLOAD_DIR ++ "/" ++ storedName env i ft) disk with
          | mk d1 r =>
            rw [h4] at h
            cases r with
            | error e => exact h
            | ok u =>
              simp only []
              split
              · exact h
              · exact h

theorem processFiles_ledger (env : Env) (files : List UploadFile) :
    ∀ (i : Nat) (md : Parsed) (disk : Disk),
      (processFiles env i files md disk).1.ledger = disk.ledger := by
  induction files with
  | nil => intro i md disk; rfl
  | cons f rest ih =>
    intro i md disk
    have h := processFile_ledger env i f md disk
    unfold processFiles
    split
    · rename_i d1 e he
      rw [he] at h
      exact h
    · rename_i d1 md1 he
      rw [he] at h
      rw [ih (i + 1) md1 d1]
      exact h

theorem sniffedImage_some {env : Env} {i : Nat} {f : UploadFile} {ft : FileTypeResult}
    (h : sniffedImage env i f = some ft) :
    env.fileTypeFromBuffer i f.buffer = .ok (some ft) ∧ startsWithImage ft.mime = true := by
  unfold sniffedImage at h
  cases h1 : env.fileTypeFromBuffer i f.buffer with
  | error e => rw [h1] at h; simp at h
  | ok o =>
    cases o with
    | none => rw [h1] at h; simp at h
    | some ft1 =>
      rw [h1] at h
      simp only [] at h
      cases h2 : startsWithImage ft1.mime with
      | false => rw [h2] at h; simp at h
      | true =>
        rw [h2] at h
        simp only [if_true, Option.some.injEq] at h
        subst h
        exact ⟨rfl, h2⟩

theorem sniffedImage_of (env : Env) (i : Nat) (f : UploadFile) (ft : FileTypeResult)
    (h1 : env.fileTypeFromBuffer i f.buffer = .ok (some ft))
    (h2 : startsWithImage ft.mime = true) : sniffedImage env i f = some ft := by
  unfold sniffedImage
  rw [h1]
  simp [h2]

/-- An iteration whose file is accepted and decoded: the full-size variant is
stored, then the thumbnail, then the record is put in front. -/
theorem processFile_accepted (env : Env) (i : Nat) (f : UploadFile) (md : Parsed)
    (disk : Disk) (ft : FileTypeResult) (m : SharpMetadata)
    (h1 : env.fileTypeFromBuffer i f.buffer = .ok (some ft))
    (h2 : startsWithImage ft.mime = true)
    (h3 : env.sharpMetadata i f.buffer = .ok m) :
    processFile env i f md disk =
      match storeFull env i f m (UPLOAD_DIR ++ "/" ++ storedName env i ft) disk with
      | (disk1, .error e) => (disk1, .error e)
      | (disk1, .ok _) =>
        if env.thumbToFile i (THUMB_DIR ++ "/" ++ ("thumb-" ++ storedName env i ft)) then
          (disk1.write (THUMB_DIR ++ "/" ++ ("thumb-" ++ storedName env i ft))
              (.resizedCover f.buffer 300 300),
            unshift md (buildRecord env i f ft m))
        else (disk1, .error "thumbnail toFile rejected") := by
  unfold processFile
  rw [h1]
  simp only [h2, Bool.not_true, Bool.false_eq_true, if_false]
  rw [h3]

/-- An iteration whose file is not accepted changes nothing. -/
theorem processFile_skip (env : Env) (i : Nat) (f : UploadFile) (md : Parsed) (disk : Disk)
    (hs : sniffedImage env i f = none) (hok : fileStepsOk env i f = true) :
    processFile env i f md disk = (disk, .ok md) := by
  unfold processFile
  unfold sniffedImage at hs
  unfold fileStepsOk at hok
  cases h1 : env.fileTypeFromBuffer i f.buffer with
  | error e => rw [h1] at hok; simp at hok
  | ok o =>
    cases o with
    | none => rfl
    | some ft =>
      rw [h1] at hs
      simp only [] at hs
      cases h2 : startsWithImage ft.mime with
      | false => simp [h2]
      | true => rw [h2] at hs; simp at hs

/-- An iteration whose file is accepted and whose steps all resolve stores
two files and puts the record in front of the ledger value. -/
theorem processFile_accept (env : Env) (i : Nat) (f : UploadFile) (md : Parsed) (disk : Disk)
    (ft : FileTypeResult) (hs : sniffedImage env i f = some ft)
    (hok : fileStepsOk env i f = true) :
    ∃ m d1, env.sharpMetadata i f.buffer = .ok m ∧
      processFile env i f md disk = (d1, unshift md (buildRecord env i f ft m)) := by
  obtain ⟨h1, h2⟩ := sniffedImage_some hs
  unfold fileStepsOk at hok
  rw [h1] at hok
  simp only [h2, Bool.not_true, Bool.false_eq_true, if_false] at hok
  cases h3 : env.sharpMetadata i f.buffer with
  | error e => rw [h3] at hok; simp at hok
  | ok m =>
    rw [h3] at hok
    simp only [Bool.and_eq_true] at hok
    obtain ⟨hw, ht⟩ := hok
    rw [processFile_accepted env i f md disk ft m h1 h2 h3]
    unfold storeFull
    cases hr : needsResize m with
    | true =>
      rw [hr] at hw
      simp only [if_true] at hw
      simp only [if_true, hw, ht]
      exact ⟨m, _, rfl, rfl⟩
    | false =>
      rw [hr] at hw
      simp only [Bool.false_eq_true, if_false] at hw
      simp only [Bool.false_eq_true, if_false, if_true, hw, ht]
      exact ⟨m, _, rfl, rfl⟩

/-- An iteration in which a library call throws ends with an error. -/
theorem processFile_fail (env : Env) (i : Nat) (f : UploadFile) (md : Parsed) (disk : Disk)
    (hok : fileStepsOk env i f = false) :
    ∃ e, (processFile env i f md disk).2 = .error e := by
  unfold fileStepsOk at hok
  cases h1 : env.fileTypeFromBuffer i f.buffer with
  | error e => exact ⟨e, by unfold processFile; rw [h1]⟩
  | ok o =>
    cases o with
    | none => rw [h1] at hok; simp at hok
    | some ft =>
      rw [h1] at hok
      cases h2 : startsWithImage ft.mime with
      | false => simp [h2] at hok
      | true =>
        simp only [h2, Bool.not_true, Bool.false_eq_true, if_false] at hok
        cases h3 : env.sharpMetadata i f.buffer with
        | error e =>
          refine ⟨e, ?_⟩
          unfold processFile
          rw [h1]
          simp only [h2, Bool.not_true, Bool.false_eq_true, if_false]
          rw [h3]
        | ok m =>
          rw [h3] at hok
          simp only [Bool.and_eq_false_iff] at hok
          rw [processFile_accepted env i f md disk ft m h1 h2 h3]
          unfold storeFull
          cases hr : needsResize m with
          | true =>
            rw [hr] at hok
            simp only [if_true] at hok
            simp only [if_true]
            cases hw : env.resizeToFile i (UPLOAD_DIR ++ "/" ++ storedName env i ft) with
            | false => simp
            | true =>
              rw [hw] at hok
              simp only [Bool.true_eq_false, false_or] at hok
              simp [hok]
          | false =>
            rw [hr] at hok
            simp only [Bool.false_eq_true, if_false] at hok
            simp only [Bool.false_eq_true, if_false]
            cases hw : env.writeFile i (UPLOAD_DIR ++ "/" ++ storedName env i ft) with
            | false => simp
            | true =>
              rw [hw] at hok
              simp only [Bool.true_eq_false, false_or] at hok
              simp [hok]

theorem processFiles_cons_ok (env : Env) (i : Nat) (f : UploadFile) (rest : List UploadFile)
    (md md1 : Parsed) (disk d1 : Disk) (h : processFile env i f md disk = (d1, .ok md1)) :
    processFiles env i (f :: rest) md disk = processFiles env (i + 1) rest md1 d1 := by
  rw [processFiles, h]

theorem processFiles_cons_error (env : Env) (i : Nat) (f : UploadFile) (rest : List UploadFile)
    (md : Parsed) (disk : Disk) (e : String) (h : (processFile env i f md disk).2 = .error e) :
    processFiles env i (f :: rest) md disk = ((processFile env i f md disk).1, .error e) := by
  rw [processFiles]
  cases hp : processFile env i f md disk with
  | mk d1 r =>
    rw [hp] at h
    simp only [] at h
    subst h
    rfl

/-- When no library call throws and the ledger value is an array, the loop
ends with the records of the accepted files in front, the last accepted file
first. -/
theorem processFiles_array (env : Env) (files : List UploadFile) :
    ∀ (i : Nat) (rs : List UploadRecord) (disk : Disk), allStepsOk env i files = true →
      (processFiles env i files (.array rs) disk).2 =
        .ok (.array ((builtRecords env i files).reverse ++ rs)) := by
  induction files with
  | nil => intro i rs disk _; rfl
  | cons f rest ih =>
    intro i rs disk hok
    simp only [allStepsOk, Bool.and_eq_true] at hok
    obtain ⟨hf, hrest⟩ := hok
    cases hs : sniffedImage env i f with
    | none =>
      rw [processFiles_cons_ok env i f rest _ _ disk disk
        (processFile_skip env i f _ disk hs hf), ih (i + 1) rs disk hrest]
      simp only [builtRecords, hs]
    | some ft =>
      obtain ⟨m, d1, hm, hp⟩ := processFile_accept env i f (.array rs) disk ft hs hf
      rw [processFiles_cons_ok env i f rest _ _ disk d1 hp, ih (i + 1) _ d1 hrest]
      simp only [builtRecords, hs, hm, List.reverse_cons, List.append_assoc,
        List.singleton_append]

/-- When a library call throws for some file, the loop ends with an error. -/
theorem processFiles_fail (env : Env) (files : List UploadFile) :
    ∀ (i : Nat) (md : Parsed) (disk : Disk), allStepsOk env i files = false →
      ∃ e, (processFiles env i files md disk).2 = .error e := by
  induction files with
  | nil => intro i md disk h; simp [allStepsOk] at h
  | cons f rest ih =>
    intro i md disk hok
    cases hf : fileStepsOk env i f with
    | false =>
      obtain ⟨e, he⟩ := processFile_fail env i f md disk hf
      exact ⟨e, by rw [processFiles_cons_error env i f rest md disk e he]⟩
    | true =>
      have hrest : allStepsOk env (i + 1) rest = false := by
        simpa [allStepsOk, hf] using hok
      cases hp : processFile env i f md disk with
      | mk d1 r =>
        cases r with
        | error e =>
          exact ⟨e, by rw [processFiles_cons_error env i f rest md disk e (by rw [hp])]⟩
        | ok md1 =>
          rw [processFiles_cons_ok env i f rest md md1 disk d1 hp]
          exact ih (i + 1) md1 d1 hrest

/-- When the ledger value is not an array, the loop succeeds only if no file
is accepted, and then leaves the value as it is. -/
theorem processFiles_other (env : Env) (files : List UploadFile) (t : String) :
    ∀ (i : Nat) (disk : Disk), allStepsOk env i files = true →
      (acceptedFiles env i files = [] →
        (processFiles env i files (.other t) disk).2 = .ok (.other t)) ∧
      (acceptedFiles env i files ≠ [] →
        ∃ e, (processFiles env i files (.other t) disk).2 = .error e) := by
  induction files with
  | nil =>
    intro i disk _
    exact ⟨fun _ => rfl, fun h => absurd rfl h⟩
  | cons f rest ih =>
    intro i disk hok
    simp only [allStepsOk, Bool.and_eq_true] at hok
    obtain ⟨hf, hrest⟩ := hok
    cases hs : sniffedImage env i f with
    | none =>
      rw [processFiles_cons_ok env i f rest _ _ disk disk
        (processFile_skip env i f _ disk hs hf)]
      simp only [acceptedFiles, hs]
      exact ih (i + 1) disk hrest
    | some ft =>
      obtain ⟨m, d1, _, hp⟩ := processFile_accept env i f (.other t) disk ft hs hf
      simp only [acceptedFiles, hs]
      refine ⟨fun h => by simp at h,
        fun _ => ⟨"TypeError: metadata.unshift is not a function", ?_⟩⟩
      rw [processFiles_cons_error env i f rest (.other t) disk
        "TypeError: metadata.unshift is not a function" (by rw [hp]; rfl)]

theorem builtRecords_of_no_accepted (env : Env) (files : List UploadFile) :
    ∀ (i : Nat), acceptedFiles env i files = [] → builtRecords env i files = [] := by
  induction files with
  | nil => intro i _; rfl
  | cons f rest ih =>
    intro i h
    cases hs : sniffedImage env i f with
    | none =>
      simp only [acceptedFiles, hs] at h
      simp only [builtRecords, hs]
      exact ih (i + 1) h
    | some ft => simp [acceptedFiles, hs] at h

/-- When no library call throws, there is one record per accepted file, in the
same order, carrying the file's name and size and the sniffed type. -/
theorem builtRecords_accepted (env : Env) (files : List UploadFile) :
    ∀ (i : Nat), allStepsOk env i files = true →
      (builtRecords env i files).map (fun r => (r.originalName, r.size, r.mime)) =
        (acceptedFiles env i files).map (fun p => (p.1.originalname, p.1.size, p.2.mime)) := by
  induction files with
  | nil => intro i _; rfl
  | cons f rest ih =>
    intro i hok
    simp only [allStepsOk, Bool.and_eq_true] at hok
    obtain ⟨hf, hrest⟩ := hok
    cases hs : sniffedImage env i f with
    | none =>
      simp only [builtRecords, acceptedFiles, hs]
      exact ih (i + 1) hrest
    | some ft =>
      obtain ⟨m, d1, hm, _⟩ := processFile_accept env i f (.array []) ⟨.unreadable, []⟩ ft hs hf
      simp only [builtRecords, acceptedFiles, hs, hm, List.map_cons, ih (i + 1) hrest]
      rfl

/-! ## Lemmas on the handler -/

theorem isResolved_iff (o : LedgerWrite) : o.isResolved = true ↔ o = .resolved := by
  cases o <;> simp [LedgerWrite.isResolved]

theorem requestOk_iff (env : Env) (disk : Disk) (files : List UploadFile) :
    requestOk env disk files = true ↔
      stepsBeforeWriteOk env disk files = true ∧ env.writeLedger = .resolved := by
  unfold requestOk
  rw [Bool.and_eq_true, isResolved_iff]

theorem stepsBeforeWriteOk_allStepsOk {env : Env} {disk : Disk} {files : List UploadFile}
    (h : stepsBeforeWriteOk env disk files = true) : allStepsOk env 0 files = true := by
  unfold stepsBeforeWriteOk at h
  cases hl : disk.ledger with
  | unreadable => simp [hl, readLedger] at h
  | malformed text => simp [hl, readLedger] at h
  | json value =>
    cases value with
    | array old =>
      simp only [hl, readLedger] at h
      exact h
    | other t =>
      simp only [hl, readLedger, Bool.and_eq_true] at h
      exact h.1

theorem requestOk_allStepsOk {env : Env} {disk : Disk} {files : List UploadFile}
    (h : requestOk env disk files = true) : allStepsOk env 0 files = true :=
  stepsBeforeWriteOk_allStepsOk ((requestOk_iff env disk files).mp h).1

/-- When no step before the final write raises an error and the ledger holds
an array, the handler reaches the final write with the records of the request
in front of the previous ones. -/
theorem postUpload_steps_array (env : Env) (disk : Disk) (f : UploadFile)
    (rest : List UploadFile) (old : List UploadRecord)
    (hl : disk.ledger = .json (.array old))
    (hsteps : stepsBeforeWriteOk env disk (f :: rest) = true) :
    ∃ d1, d1.ledger = disk.ledger ∧
      postUpload env disk (some (f :: rest)) =
        finishRequest env d1 (.array ((builtRecords env 0 (f :: rest)).reverse ++ old)) := by
  have hall := stepsBeforeWriteOk_allStepsOk hsteps
  have hp := processFiles_array env (f :: rest) 0 old disk hall
  have hled := processFiles_ledger env (f :: rest) 0 (.array old) disk
  unfold postUpload
  rw [hl]
  simp only [readLedger]
  cases hr : processFiles env 0 (f :: rest) (.array old) disk with
  | mk d1 r =>
    rw [hr] at hp hled
    simp only [] at hp
    subst hp
    exact ⟨d1, by rw [hled, hl], rfl⟩

/-- When no step before the final write raises an error and the ledger holds a
JSON value that is not an array, no file is accepted and the handler reaches
the final write with that value. -/
theorem postUpload_steps_other (env : Env) (disk : Disk) (f : UploadFile)
    (rest : List UploadFile) (t : String)
    (hl : disk.ledger = .json (.other t))
    (hsteps : stepsBeforeWriteOk env disk (f :: rest) = true) :
    builtRecords env 0 (f :: rest) = [] ∧
    ∃ d1, d1.ledger = disk.ledger ∧
      postUpload env disk (some (f :: rest)) = finishRequest env d1 (.other t) := by
  have hall := stepsBeforeWriteOk_allStepsOk hsteps
  unfold stepsBeforeWriteOk at hsteps
  rw [hl] at hsteps
  simp only [readLedger, Bool.and_eq_true, List.isEmpty_iff] at hsteps
  have hnone := hsteps.2
  have hp := (processFiles_other env (f :: rest) t 0 disk hall).1 hnone
  have hled := processFiles_ledger env (f :: rest) 0 (.other t) disk
  refine ⟨builtRecords_of_no_accepted env (f :: rest) 0 hnone, ?_⟩
  unfold postUpload
  rw [hl]
  simp only [readLedger]
  cases hr : processFiles env 0 (f :: rest) (.other t) disk with
  | mk d1 r =>
    rw [hr] at hp hled
    simp only [] at hp
    subst hp
    exact ⟨d1, by rw [hled, hl], rfl⟩

/-- A request in which no step raises an error, on a ledger holding an array. -/
theorem postUpload_ok_array (env : Env) (disk : Disk) (f : UploadFile)
    (rest : List UploadFile) (old : List UploadRecord)
    (hl : disk.ledger = .json (.array old))
    (hok : requestOk env disk (f :: rest) = true) :
    (postUpload env disk (some (f :: rest))).1 = ⟨200, .okTrue⟩ ∧
    (postUpload env disk (some (f :: rest))).2.ledger =
      .json (.array ((builtRecords env 0 (f :: rest)).reverse ++ old)) := by
  obtain ⟨hsteps, hw⟩ := (requestOk_iff env disk (f :: rest)).mp hok
  obtain ⟨d1, _, hp⟩ := postUpload_steps_array env disk f rest old hl hsteps
  rw [hp]
  unfold finishRequest
  rw [hw]
  exact ⟨rfl, rfl⟩

/-- A request in which no step raises an error, on a ledger holding a JSON
value that is not an array: no file is accepted and the value is written back. -/
theorem postUpload_ok_other (env : Env) (disk : Disk) (f : UploadFile)
    (rest : List UploadFile) (t : String)
    (hl : disk.ledger = .json (.other t))
    (hok : requestOk env disk (f :: rest) = true) :
    (postUpload env disk (some (f :: rest))).1 = ⟨200, .okTrue⟩ ∧
    (postUpload env disk (some (f :: rest))).2.ledger = .json (.other t) ∧
    builtRecords env 0 (f :: rest) = [] := by
  obtain ⟨hsteps, hw⟩ := (requestOk_iff env disk (f :: rest)).mp hok
  obtain ⟨hnil, d1, _, hp⟩ := postUpload_steps_other env disk f rest t hl hsteps
  rw [hp]
  unfold finishRequest
  rw [hw]
  exact ⟨rfl, rfl, hnil⟩

/-- When no step before the final write raises an error, the handler ends
with the final write, on a file system whose ledger file is still the one of
before the request. -/
theorem postUpload_reaches_write (env : Env) (disk : Disk) (f : UploadFile)
    (rest : List UploadFile) (hsteps : stepsBeforeWriteOk env disk (f :: rest) = true) :
    ∃ d1 md1, d1.ledger = disk.ledger ∧
      postUpload env disk (some (f :: rest)) = finishRequest env d1 md1 := by
  cases hl : disk.ledger with
  | unreadable => simp [stepsBeforeWriteOk, hl, readLedger] at hsteps
  | malformed text => simp [stepsBeforeWriteOk, hl, readLedger] at hsteps
  | json value =>
    cases value with
    | array old =>
      obtain ⟨d1, hd, hp⟩ := postUpload_steps_array env disk f rest old hl hsteps
      exact ⟨d1, _, by rw [hd, hl], hp⟩
    | other t =>
      obtain ⟨_, d1, hd, hp⟩ := postUpload_steps_other env disk f rest t hl hsteps
      exact ⟨d1, _, by rw [hd, hl], hp⟩

/-- A request in which a step before the final write raises an error: the
response is the 500 of the `catch` block and line 92 is not reached, so the
ledger file is what it was. -/
theorem postUpload_before_fail (env : Env) (disk : Disk) (f : UploadFile)
    (rest : List UploadFile) (hbad : stepsBeforeWriteOk env disk (f :: rest) = false) :
    (postUpload env disk (some (f :: rest))).1 = serverError ∧
    (postUpload env disk (some (f :: rest))).2.ledger = disk.ledger := by
  have key : ∀ (md : Parsed), readLedger disk.ledger = .ok md →
      (∃ e, (processFiles env 0 (f :: rest) md disk).2 = .error e) →
      (postUpload env disk (some (f :: rest))).1 = serverError ∧
      (postUpload env disk (some (f :: rest))).2.ledger = disk.ledger := by
    intro md hmd h
    have hled := processFiles_ledger env (f :: rest) 0 md disk
    unfold postUpload
    rw [hmd]
    simp only []
    cases hr : processFiles env 0 (f :: rest) md disk with
    | mk d1 r =>
      rw [hr] at hled
      cases r with
      | error e => exact ⟨by trivial, hled⟩
      | ok md1 =>
        obtain ⟨e, he⟩ := h
        rw [hr] at he
        simp at he
  unfold stepsBeforeWriteOk at hbad
  cases hl : disk.ledger with
  | unreadable =>
    unfold postUpload
    rw [hl]
    exact ⟨rfl, hl⟩
  | malformed text =>
    unfold postUpload
    rw [hl]
    exact ⟨rfl, hl⟩
  | json value =>
    rw [hl] at hbad
    have hrd : readLedger disk.ledger = .ok value := by rw [hl]; rfl
    rw [← hl]
    cases value with
    | array old =>
      simp only [readLedger] at hbad
      exact key _ hrd (processFiles_fail env (f :: rest) 0 _ disk hbad)
    | other t =>
      simp only [readLedger, Bool.and_eq_false_iff] at hbad
      refine key _ hrd ?_
      rcases hbad with h | h
      · exact processFiles_fail env (f :: rest) 0 _ disk h
      · cases hs : allStepsOk env 0 (f :: rest) with
        | false => exact processFiles_fail env (f :: rest) 0 _ disk hs
        | true =>
          refine (processFiles_other env (f :: rest) t 0 disk hs).2 ?_
          intro hnil
          rw [hnil] at h
          simp at h

/-- A request in which some step raises an error is answered by the 500 of the
`catch` block. -/
theorem postUpload_err_response (env : Env) (disk : Disk) (f : UploadFile)
    (rest : List UploadFile) (hbad : requestOk env disk (f :: rest) = false) :
    (postUpload env disk (some (f :: rest))).1 = serverError := by
  cases hsteps : stepsBeforeWriteOk env disk (f :: rest) with
  | false => exact (postUpload_before_fail env disk f rest hsteps).1
  | true =>
    obtain ⟨d1, md1, _, hp⟩ := postUpload_reaches_write env disk f rest hsteps
    rw [hp]
    unfold finishRequest
    cases hw : env.writeLedger with
    | resolved =>
      have : requestOk env disk (f :: rest) = true :=
        (requestOk_iff env disk (f :: rest)).mpr ⟨hsteps, hw⟩
      rw [this] at hbad
      simp at hbad
    | rejectedAtOpen => rfl
    | rejectedAfterOpen written => rfl

/-- The response is 200 exactly when no step raises an error. -/
theorem postUpload_status_ok_iff (env : Env) (disk : Disk) (f : UploadFile)
    (rest : List UploadFile) :
    (postUpload env disk (some (f :: rest))).1.status = 200 ↔
      requestOk env disk (f :: rest) = true := by
  constructor
  · intro h
    cases hr : requestOk env disk (f :: rest) with
    | true => rfl
    | false =>
      rw [postUpload_err_response env disk f rest hr] at h
      simp [serverError] at h
  · intro h
    have hsteps := ((requestOk_iff env disk (f :: rest)).mp h).1
    cases hl : disk.ledger with
    | unreadable => simp [stepsBeforeWriteOk, hl, readLedger] at hsteps
    | malformed text => simp [stepsBeforeWriteOk, hl, readLedger] at hsteps
    | json value =>
      cases value with
      | array old => rw [(postUpload_ok_array env disk f rest old hl h).1]
      | other t => rw [(postUpload_ok_other env disk f rest t hl h).1]

theorem builtRecords_mime (env : Env) (files : List UploadFile) :
    ∀ (i : Nat), ∀ r ∈ builtRecords env i files, startsWithImage r.mime = true := by
  induction files with
  | nil => intro i r hr; simp [builtRecords] at hr
  | cons f rest ih =>
    intro i r hr
    cases hs : sniffedImage env i f with
    | none =>
      simp only [builtRecords, hs] at hr
      exact ih (i + 1) r hr
    | some ft =>
      cases hm : env.sharpMetadata i f.buffer with
      | error e =>
        simp only [builtRecords, hs, hm] at hr
        exact ih (i + 1) r hr
      | ok m =>
        simp only [builtRecords, hs, hm, List.mem_cons] at hr
        rcases hr with h | h
        · subst h
          exact (sniffedImage_some hs).2
        · exact ih (i + 1) r h

theorem builtRecords_append (env : Env) (xs ys : List UploadFile) :
    ∀ (i : Nat), builtRecords env i (xs ++ ys) =
      builtRecords env i xs ++ builtRecords env (i + xs.length) ys := by
  induction xs with
  | nil => intro i; rfl
  | cons x rest ih =>
    intro i
    have hidx : i + 1 + rest.length = i + (x :: rest).length := by
      simp only [List.length_cons]; omega
    cases hs : sniffedImage env i x with
    | none =>
      simp only [List.cons_append, builtRecords, hs, List.append_eq]
      rw [ih (i + 1), hidx]
    | some ft =>
      cases hm : env.sharpMetadata i x.buffer with
      | error e =>
        simp only [List.cons_append, builtRecords, hs, hm, List.append_eq]
        rw [ih (i + 1), hidx]
      | ok m =>
        simp only [List.cons_append, builtRecords, hs, hm, List.append_eq]
        rw [ih (i + 1), hidx]

theorem allStepsOk_append (env : Env) (xs ys : List UploadFile) :
    ∀ (i : Nat), allStepsOk env i (xs ++ ys) =
      (allStepsOk env i xs && allStepsOk env (i + xs.length) ys) := by
  induction xs with
  | nil => intro i; simp [allStepsOk]
  | cons x rest ih =>
    intro i
    have hidx : i + 1 + rest.length = i + (x :: rest).length := by
      simp only [List.length_cons]; omega
    simp only [List.cons_append, allStepsOk, List.append_eq]
    rw [ih (i + 1), hidx, Bool.and_assoc]

/-- Once the loop has ended with an error, the files that follow play no part. -/
theorem processFiles_append_error (env : Env) (xs ys : List UploadFile) (e : String) :
    ∀ (i : Nat) (md : Parsed) (disk : Disk),
      (processFiles env i xs md disk).2 = .error e →
      processFiles env i (xs ++ ys) md disk = processFiles env i xs md disk := by
  induction xs with
  | nil => intro i md disk h; simp [processFiles] at h
  | cons x rest ih =>
    intro i md disk h
    cases hp : processFile env i x md disk with
    | mk d1 r =>
      cases r with
      | error e1 =>
        have he : (processFile env i x md disk).2 = .error e1 := by rw [hp]
        rw [List.cons_append, processFiles_cons_error env i x _ md disk e1 he,
          processFiles_cons_error env i x _ md disk e1 he]
      | ok md1 =>
        rw [processFiles_cons_ok env i x rest md md1 disk d1 hp] at h
        rw [List.cons_append, processFiles_cons_ok env i x _ md md1 disk d1 hp,
          processFiles_cons_ok env i x _ md md1 disk d1 hp]
        exact ih (i + 1) md1 d1 h

/-- The handler on a non-empty file list. -/
theorem postUpload_nonempty (env : Env) (disk : Disk) (files : List UploadFile)
    (hne : files ≠ []) :
    postUpload env disk (some files) =
      match readLedger disk.ledger with
      | .error _ => (serverError, disk)
      | .ok metadata =>
        match processFiles env 0 files metadata disk with
        | (disk1, .error _) => (serverError, disk1)
        | (disk1, .ok metadata1) => finishRequest env disk1 metadata1 := by
  cases files with
  | nil => exact absurd rfl hne
  | cons f rest => rfl

theorem exceeds_iff (d : Option Nat) (bound : Nat) :
    exceeds d bound = true ↔ ∃ n, d = some n ∧ bound < n := by
  cases d with
  | none => simp [exceeds]
  | some n =>
    by_cases hn : n = 0
    · subst hn
      simp [exceeds]
    · simp [exceeds, hn]

theorem orNull_isSome_iff (d : Option Nat) :
    (orNull d).isSome = true ↔ ∃ n, d = some n ∧ n ≠ 0 := by
  cases d with
  | none => simp [orNull]
  | some n =>
    by_cases hn : n = 0
    · subst hn
      simp [orNull]
    · simp [orNull, hn]

theorem orNull_of_pos (d : Option Nat) (h : ∀ n, d = some n → 0 < n) : orNull d = d := by
  cases d with
  | none => rfl
  | some n =>
    have hn : n ≠ 0 := Nat.pos_iff_ne_zero.mp (h n rfl)
    simp [orNull, hn]

/-- Rounding to the nearest whole number is off by at most one half. -/
theorem roundDiv_bounds (a b : Nat) (hb : 0 < b) :
    2 * (roundDiv a b * b) ≤ 2 * a + b ∧ 2 * a < 2 * (roundDiv a b * b) + b := by
  unfold roundDiv
  have h2b : 0 < 2 * b := by omega
  have hle := Nat.div_mul_le_self (2 * a + b) (2 * b)
  have hlt := Nat.lt_div_mul_add (a := 2 * a + b) h2b
  have hmul : (2 * a + b) / (2 * b) * (2 * b) = 2 * ((2 * a + b) / (2 * b) * b) := by ring
  rw [hmul] at hle hlt
  constructor
  · exact hle
  · omega

theorem roundDiv_self_mul (w box : Nat) (hw : 0 < w) : roundDiv (w * box) w = box := by
  unfold roundDiv
  have h : 2 * (w * box) + w = w + box * (2 * w) := by ring
  rw [h, Nat.add_mul_div_right _ _ (by omega : 0 < 2 * w), Nat.div_eq_of_lt (by omega)]
  simp

theorem roundDiv_mul_le (s w box : Nat) (hw : 0 < w) (hs : s ≤ w) :
    roundDiv (s * box) w ≤ box := by
  have hmono : roundDiv (s * box) w ≤ roundDiv (w * box) w := by
    unfold roundDiv
    apply Nat.div_le_div_right
    have := Nat.mul_le_mul_right box hs
    omega
  rw [roundDiv_self_mul w box hw] at hmono
  exact hmono

/-! ## The claims -/

/-- C1: in a non-empty batch in which no step raises an error, the response is
200 with body ok-true, and the ledger gains exactly one record per file whose
sniffed type is present and starts with image/, none for the other files; each
new record carries the sniffed type, which starts with image/. -/
theorem upload_records_exactly_sniffed_images (env : Env) (disk : Disk) (f : UploadFile)
    (rest : List UploadFile) (hok : requestOk env disk (f :: rest) = true) :
    (postUpload env disk (some (f :: rest))).1 = ⟨200, .okTrue⟩ ∧
    ∃ new : List UploadRecord,
      (postUpload env disk (some (f :: rest))).2.ledger.records =
        new ++ disk.ledger.records ∧
      (new = [] → (postUpload env disk (some (f :: rest))).2.ledger = disk.ledger) ∧
      new.reverse.map (fun r => (r.originalName, r.size, r.mime)) =
        (acceptedFiles env 0 (f :: rest)).map
          (fun p => (p.1.originalname, p.1.size, p.2.mime)) ∧
      new.length = (acceptedFiles env 0 (f :: rest)).length ∧
      ∀ r ∈ new, startsWithImage r.mime = true := by
  have hsteps := requestOk_allStepsOk hok
  have hmap := builtRecords_accepted env (f :: rest) 0 hsteps
  have hlen : (builtRecords env 0 (f :: rest)).reverse.length =
      (acceptedFiles env 0 (f :: rest)).length := by
    have := congrArg List.length hmap
    simpa using this
  have hmime : ∀ r ∈ (builtRecords env 0 (f :: rest)).reverse,
      startsWithImage r.mime = true := by
    intro r hr
    exact builtRecords_mime env (f :: rest) 0 r (List.mem_reverse.mp hr)
  cases hl : disk.ledger with
  | unreadable => simp [requestOk, stepsBeforeWriteOk, hl, readLedger] at hok
  | malformed text => simp [requestOk, stepsBeforeWriteOk, hl, readLedger] at hok
  | json value =>
    cases value with
    | array old =>
      obtain ⟨h1, h2⟩ := postUpload_ok_array env disk f rest old hl hok
      refine ⟨h1, (builtRecords env 0 (f :: rest)).reverse, ?_, ?_, ?_, hlen, hmime⟩
      · rw [h2]
        rfl
      · intro hnil
        rw [h2, hnil]
        rfl
      · rw [List.reverse_reverse]
        exact hmap
    | other t =>
      obtain ⟨h1, h2, h3⟩ := postUpload_ok_other env disk f rest t hl hok
      refine ⟨h1, (builtRecords env 0 (f :: rest)).reverse, ?_, ?_, ?_, hlen, hmime⟩
      · rw [h2, h3]
        rfl
      · intro _
        rw [h2]
      · rw [List.reverse_reverse]
        exact hmap

/-- C1, on the batch of the spec: two images and a renamed text file. -/
theorem upload_records_exactly_sniffed_images_witness :
    requestOk sampleEnv emptyDisk [photo, notes, icon] = true ∧
    ((postUpload sampleEnv emptyDisk (some [photo, notes, icon])).1 = ⟨200, .okTrue⟩ ∧
    ∃ new : List UploadRecord,
      (postUpload sampleEnv emptyDisk (some [photo, notes, icon])).2.ledger.records =
        new ++ emptyDisk.ledger.records ∧
      (new = [] →
        (postUpload sampleEnv emptyDisk (some [photo, notes, icon])).2.ledger =
          emptyDisk.ledger) ∧
      new.reverse.map (fun r => (r.originalName, r.size, r.mime)) =
        (acceptedFiles sampleEnv 0 [photo, notes, icon]).map
          (fun p => (p.1.originalname, p.1.size, p.2.mime)) ∧
      new.length = (acceptedFiles sampleEnv 0 [photo, notes, icon]).length ∧
      ∀ r ∈ new, startsWithImage r.mime = true) :=
  ⟨by decide,
    upload_records_exactly_sniffed_images sampleEnv emptyDisk photo [notes, icon] (by decide)⟩

/-- C2: after a successful upload the persisted ledger is the records of the
request followed by the whole previous ledger, unchanged and in the same
order; after two successful uploads A then B, the listing of GET /images is
the records of B, then the records of A, then the earlier ledger. -/
theorem ledger_is_new_records_then_previous (envA envB : Env) (disk : Disk)
    (old : List UploadRecord) (fA : UploadFile) (restA : List UploadFile)
    (fB : UploadFile) (restB : List UploadFile)
    (hl : disk.ledger = .json (.array old))
    (hA : (postUpload envA disk (some (fA :: restA))).1.status = 200)
    (hB : (postUpload envB (postUpload envA disk (some (fA :: restA))).2
      (some (fB :: restB))).1.status = 200) :
    (postUpload envA disk (some (fA :: restA))).2.ledger =
      .json (.array ((builtRecords envA 0 (fA :: restA)).reverse ++ old)) ∧
    getImages (postUpload envB (postUpload envA disk (some (fA :: restA))).2
      (some (fB :: restB))).2 =
      ⟨200, .data (.array ((builtRecords envB 0 (fB :: restB)).reverse ++
        ((builtRecords envA 0 (fA :: restA)).reverse ++ old)))⟩ := by
  have h1 := (postUpload_ok_array envA disk fA restA old hl
    ((postUpload_status_ok_iff envA disk fA restA).mp hA)).2
  have h2 := (postUpload_ok_array envB _ fB restB _ h1
    ((postUpload_status_ok_iff envB _ fB restB).mp hB)).2
  refine ⟨h1, ?_⟩
  unfold getImages
  rw [h2]
  rfl

/-- C2, on two successive uploads: an image and a text file, then an icon. -/
theorem ledger_is_new_records_then_previous_witness :
    emptyDisk.ledger = .json (.array []) ∧
    (postUpload sampleEnv emptyDisk (some [photo, notes])).1.status = 200 ∧
    (postUpload laterEnv (postUpload sampleEnv emptyDisk (some [photo, notes])).2
      (some [icon])).1.status = 200 ∧
    ((postUpload sampleEnv emptyDisk (some [photo, notes])).2.ledger =
      .json (.array ((builtRecords sampleEnv 0 [photo, notes]).reverse ++ [])) ∧
    getImages (postUpload laterEnv (postUpload sampleEnv emptyDisk (some [photo, notes])).2
      (some [icon])).2 =
      ⟨200, .data (.array ((builtRecords laterEnv 0 [icon]).reverse ++
        ((builtRecords sampleEnv 0 [photo, notes]).reverse ++ [])))⟩) :=
  ⟨rfl, by decide, by decide,
    ledger_is_new_records_then_previous sampleEnv laterEnv emptyDisk [] photo [notes]
      icon [] rfl (by decide) (by decide)⟩

/-- C4 (as amended): when any step of a non-empty request raises an error (the
ledger file is unreadable or is not valid JSON, a library call throws for some
file, `unshift` is missing, or the final write of the ledger is rejected), the
response is the 500 of the `catch` block; and when the error comes before the
final write of the ledger, or that write is rejected before it opens the file,
the ledger file is what it was before the request, so that no record built
during the request is persisted. -/
theorem error_gives_500_and_ledger_kept_before_write (env : Env) (disk : Disk)
    (f : UploadFile) (rest : List UploadFile)
    (hbad : requestOk env disk (f :: rest) = false) :
    (postUpload env disk (some (f :: rest))).1 = ⟨500, .text "服务器错误"⟩ ∧
    ((stepsBeforeWriteOk env disk (f :: rest) = false ∨ env.writeLedger = .rejectedAtOpen) →
      (postUpload env disk (some (f :: rest))).2.ledger = disk.ledger) := by
  refine ⟨postUpload_err_response env disk f rest hbad, ?_⟩
  intro h
  cases hsteps : stepsBeforeWriteOk env disk (f :: rest) with
  | false => exact (postUpload_before_fail env disk f rest hsteps).2
  | true =>
    rcases h with h | h
    · rw [hsteps] at h
      simp at h
    · obtain ⟨d1, md1, hd, hp⟩ := postUpload_reaches_write env disk f rest hsteps
      rw [hp]
      unfold finishRequest
      rw [h]
      exact hd

/-- C4 (as amended), on a batch whose first file is fully processed and whose
second file cannot be decoded, with one earlier record in the ledger. -/
theorem error_gives_500_and_ledger_kept_before_write_witness :
    requestOk brokenDecoderEnv earlierDisk [photo, icon] = false ∧
    (postUpload brokenDecoderEnv earlierDisk (some [photo, icon])).1 =
      ⟨500, .text "服务器错误"⟩ ∧
    stepsBeforeWriteOk brokenDecoderEnv earlierDisk [photo, icon] = false ∧
    (postUpload brokenDecoderEnv earlierDisk (some [photo, icon])).2.ledger =
      earlierDisk.ledger :=
  ⟨by decide,
    (error_gives_500_and_ledger_kept_before_write brokenDecoderEnv earlierDisk photo [icon]
      (by decide)).1,
    by decide,
    (error_gives_500_and_ledger_kept_before_write brokenDecoderEnv earlierDisk photo [icon]
      (by decide)).2 (Or.inl (by decide))⟩

/-- C4 (as stated) fails: when every step resolves except the final write of
the ledger, which is rejected once the file has been opened and truncated, the
response is 500 and the ledger file, which listed one record, is left empty. -/
theorem error_leaves_ledger_as_before_counterexample :
    stepsBeforeWriteOk truncatingEnv earlierDisk [photo] = true ∧
    requestOk truncatingEnv earlierDisk [photo] = false ∧
    (postUpload truncatingEnv earlierDisk (some [photo])).1.status = 500 ∧
    (postUpload truncatingEnv earlierDisk (some [photo])).2.ledger = .malformed "" ∧
    (postUpload truncatingEnv earlierDisk (some [photo])).2.ledger ≠ earlierDisk.ledger := by
  decide

/-- C9: when the file list is absent or empty the response is 400 and the
file system is left as it is, whatever the state of the ledger file (it is
not read) and whatever the library calls would do. -/
theorem no_files_gives_400_without_effect (env : Env) (disk : Disk) :
    postUpload env disk none = (⟨400, .text "没有文件"⟩, disk) ∧
    postUpload env disk (some []) = (⟨400, .text "没有文件"⟩, disk) := by
  exact ⟨rfl, rfl⟩

/-- C3 (as amended): when the decoder or a disk write fails for an accepted
file of the batch, the whole request fails with 500, the ledger file is left
as it was, so that no file of the batch is recorded, and the files after the
failing one are not processed: the outcome is the one of the batch cut after
the failing file. -/
theorem failed_file_aborts_batch (env : Env) (disk : Disk) (pre : List UploadFile)
    (f : UploadFile) (post : List UploadFile) (ft : FileTypeResult)
    (hs : sniffedImage env pre.length f = some ft)
    (hfail : fileStepsOk env pre.length f = false) :
    (postUpload env disk (some (pre ++ f :: post))).1 = ⟨500, .text "服务器错误"⟩ ∧
    (postUpload env disk (some (pre ++ f :: post))).2.ledger = disk.ledger ∧
    postUpload env disk (some (pre ++ f :: post)) =
      postUpload env disk (some (pre ++ [f])) := by
  have hsteps : ∀ tail, allStepsOk env 0 (pre ++ f :: tail) = false := by
    intro tail
    rw [allStepsOk_append]
    simp [allStepsOk, hfail]
  have hbad : stepsBeforeWriteOk env disk (pre ++ f :: post) = false := by
    unfold stepsBeforeWriteOk
    cases readLedger disk.ledger with
    | error e => rfl
    | ok v =>
      cases v with
      | array old => simp [hsteps post]
      | other t => simp [hsteps post]
  have hshape : ∃ f0 rest0, pre ++ f :: post = f0 :: rest0 := by
    cases pre with
    | nil => exact ⟨f, post, rfl⟩
    | cons p ps => exact ⟨p, ps ++ f :: post, rfl⟩
  obtain ⟨f0, rest0, hL⟩ := hshape
  refine ⟨?_, ?_, ?_⟩
  · rw [hL] at hbad ⊢
    exact (postUpload_before_fail env disk f0 rest0 hbad).1
  · rw [hL] at hbad ⊢
    exact (postUpload_before_fail env disk f0 rest0 hbad).2
  · have hsplit : pre ++ f :: post = (pre ++ [f]) ++ post := by simp
    rw [postUpload_nonempty env disk (pre ++ f :: post) (by simp),
      postUpload_nonempty env disk (pre ++ [f]) (by simp)]
    cases readLedger disk.ledger with
    | error e => rfl
    | ok md =>
      obtain ⟨e, he⟩ := processFiles_fail env (pre ++ [f]) 0 md disk (hsteps [])
      simp only []
      rw [hsplit, processFiles_append_error env (pre ++ [f]) post e 0 md disk he]

/-- C3 (as amended), on a batch whose second file cannot be decoded. -/
theorem failed_file_aborts_batch_witness :
    sniffedImage brokenDecoderEnv [photo].length icon = some ⟨"png", "image/png"⟩ ∧
    fileStepsOk brokenDecoderEnv [photo].length icon = false ∧
    ((postUpload brokenDecoderEnv emptyDisk (some ([photo] ++ icon :: [photo, photo]))).1 =
      ⟨500, .text "服务器错误"⟩ ∧
    (postUpload brokenDecoderEnv emptyDisk (some ([photo] ++ icon :: [photo, photo]))).2.ledger =
      emptyDisk.ledger ∧
    postUpload brokenDecoderEnv emptyDisk (some ([photo] ++ icon :: [photo, photo])) =
      postUpload brokenDecoderEnv emptyDisk (some ([photo] ++ [icon]))) :=
  ⟨by decide, by decide,
    failed_file_aborts_batch brokenDecoderEnv emptyDisk [photo] icon [photo, photo]
      ⟨"png", "image/png"⟩ (by decide) (by decide)⟩

/-- C3 (as stated) fails: in the batch photo, icon, photo the decoder throws on
the icon only, every step resolves for the two photos, and yet the request
ends with 500 and the ledger lists no record, not even the one of the first
photo, which was fully processed. -/
theorem failed_file_excluded_alone_counterexample :
    fileStepsOk brokenDecoderEnv 0 photo = true ∧
    brokenDecoderEnv.sharpMetadata 1 icon.buffer =
      .error "Input buffer contains unsupported image format" ∧
    fileStepsOk brokenDecoderEnv 2 photo = true ∧
    (postUpload brokenDecoderEnv emptyDisk (some [photo, icon, photo])).1.status = 500 ∧
    (postUpload brokenDecoderEnv emptyDisk (some [photo, icon, photo])).2.ledger.records = [] :=
  ⟨by decide, rfl, by decide, by decide, by decide⟩

/-- C10: in a successful batch, when an accepted file `fa` comes before an
accepted file `fb` in the request, the record of `fb` comes before the record
of `fa` in the resulting ledger. -/
theorem batch_records_in_reverse_order (env : Env) (disk : Disk) (old : List UploadRecord)
    (pre : List UploadFile) (fa : UploadFile) (mid : List UploadFile) (fb : UploadFile)
    (post : List UploadFile) (fta ftb : FileTypeResult)
    (hl : disk.ledger = .json (.array old))
    (hok : (postUpload env disk (some (pre ++ fa :: (mid ++ fb :: post)))).1.status = 200)
    (ha : sniffedImage env pre.length fa = some fta)
    (hb : sniffedImage env (pre.length + 1 + mid.length) fb = some ftb) :
    ∃ ma mb front middle back,
      env.sharpMetadata pre.length fa.buffer = .ok ma ∧
      env.sharpMetadata (pre.length + 1 + mid.length) fb.buffer = .ok mb ∧
      (postUpload env disk (some (pre ++ fa :: (mid ++ fb :: post)))).2.ledger =
        .json (.array (front ++
          buildRecord env (pre.length + 1 + mid.length) fb ftb mb ::
            (middle ++ buildRecord env pre.length fa fta ma :: back))) := by
  have hshape : ∃ f0 rest0, pre ++ fa :: (mid ++ fb :: post) = f0 :: rest0 := by
    cases pre with
    | nil => exact ⟨fa, mid ++ fb :: post, rfl⟩
    | cons p ps => exact ⟨p, ps ++ fa :: (mid ++ fb :: post), rfl⟩
  obtain ⟨f0, rest0, hL⟩ := hshape
  have hreq : requestOk env disk (pre ++ fa :: (mid ++ fb :: post)) = true := by
    rw [hL] at hok ⊢
    exact (postUpload_status_ok_iff env disk f0 rest0).mp hok
  have hled : (postUpload env disk (some (pre ++ fa :: (mid ++ fb :: post)))).2.ledger =
      .json (.array ((builtRecords env 0 (pre ++ fa :: (mid ++ fb :: post))).reverse ++ old)) := by
    rw [hL] at hreq ⊢
    exact (postUpload_ok_array env disk f0 rest0 old hl hreq).2
  have hsteps := requestOk_allStepsOk hreq
  rw [allStepsOk_append, Nat.zero_add] at hsteps
  simp only [allStepsOk, Bool.and_eq_true] at hsteps
  obtain ⟨_, hfa, htail⟩ := hsteps
  rw [allStepsOk_append] at htail
  simp only [allStepsOk, Bool.and_eq_true] at htail
  obtain ⟨_, hfb, _⟩ := htail
  obtain ⟨ma, _, hma, _⟩ := processFile_accept env pre.length fa (.array []) disk fta ha hfa
  obtain ⟨mb, _, hmb, _⟩ :=
    processFile_accept env (pre.length + 1 + mid.length) fb (.array []) disk ftb hb hfb
  refine ⟨ma, mb, (builtRecords env (pre.length + 1 + mid.length + 1) post).reverse,
    (builtRecords env (pre.length + 1) mid).reverse,
    (builtRecords env 0 pre).reverse ++ old, hma, hmb, ?_⟩
  rw [hled, builtRecords_append, Nat.zero_add]
  simp only [builtRecords, ha, hma]
  rw [builtRecords_append]
  simp only [builtRecords, hb, hmb, List.reverse_append, List.reverse_cons, List.append_assoc,
    List.singleton_append, List.cons_append, List.nil_append]

/-- C10, on the batch photo, notes, icon: the icon's record precedes the
photo's. -/
theorem batch_records_in_reverse_order_witness :
    emptyDisk.ledger = .json (.array []) ∧
    (postUpload sampleEnv emptyDisk (some ([] ++ photo :: ([notes] ++ icon :: [])))).1.status
      = 200 ∧
    sniffedImage sampleEnv ([] : List UploadFile).length photo = some ⟨"jpg", "image/jpeg"⟩ ∧
    sniffedImage sampleEnv (([] : List UploadFile).length + 1 + [notes].length) icon =
      some ⟨"png", "image/png"⟩ ∧
    ∃ ma mb front middle back,
      sampleEnv.sharpMetadata ([] : List UploadFile).length photo.buffer = .ok ma ∧
      sampleEnv.sharpMetadata (([] : List UploadFile).length + 1 + [notes].length) icon.buffer
        = .ok mb ∧
      (postUpload sampleEnv emptyDisk (some ([] ++ photo :: ([notes] ++ icon :: [])))).2.ledger =
        .json (.array (front ++
          buildRecord sampleEnv (([] : List UploadFile).length + 1 + [notes].length) icon
              ⟨"png", "image/png"⟩ mb ::
            (middle ++ buildRecord sampleEnv ([] : List UploadFile).length photo
              ⟨"jpg", "image/jpeg"⟩ ma :: back))) :=
  ⟨rfl, by decide, by decide, by decide,
    batch_records_in_reverse_order sampleEnv emptyDisk [] [] photo [notes] icon []
      ⟨"jpg", "image/jpeg"⟩ ⟨"png", "image/png"⟩ rfl (by decide) (by decide) (by decide)⟩

/-- C5: for an accepted file whose steps all resolve, the resize path is taken
exactly when the decoded width or the decoded height is greater than 2000; the
file stored at the full-size path is then the output of the resize inside
2000 x 2000, and in every other case (an absent dimension included) it is the
uploaded buffer itself. -/
theorem full_variant_resized_iff_exceeds (env : Env) (i : Nat) (f : UploadFile) (md : Parsed)
    (disk : Disk) (ft : FileTypeResult) (m : SharpMetadata)
    (h1 : env.fileTypeFromBuffer i f.buffer = .ok (some ft))
    (h2 : startsWithImage ft.mime = true)
    (h3 : env.sharpMetadata i f.buffer = .ok m)
    (hok : fileStepsOk env i f = true) :
    (needsResize m = true ↔
      ((∃ w, m.width = some w ∧ 2000 < w) ∨ (∃ h, m.height = some h ∧ 2000 < h))) ∧
    (processFile env i f md disk).1.files =
      (THUMB_DIR ++ "/" ++ ("thumb-" ++ storedName env i ft),
          Content.resizedCover f.buffer 300 300) ::
        (UPLOAD_DIR ++ "/" ++ storedName env i ft,
          if needsResize m then Content.resizedInside f.buffer 2000 2000
          else Content.raw f.buffer) :: disk.files := by
  constructor
  · unfold needsResize
    rw [Bool.or_eq_true, exceeds_iff, exceeds_iff]
    rfl
  · unfold fileStepsOk at hok
    rw [h1] at hok
    simp only [h2, Bool.not_true, Bool.false_eq_true, if_false] at hok
    rw [h3] at hok
    simp only [Bool.and_eq_true] at hok
    obtain ⟨hw, ht⟩ := hok
    rw [processFile_accepted env i f md disk ft m h1 h2 h3]
    unfold storeFull
    cases hr : needsResize m with
    | true =>
      rw [hr] at hw
      simp only [if_true] at hw
      simp only [if_true, hw, ht]
      rfl
    | false =>
      rw [hr] at hw
      simp only [Bool.false_eq_true, if_false] at hw
      simp only [Bool.false_eq_true, if_false, if_true, hw, ht]
      rfl

/-- C5, on the icon of 640 x 480: the stored full file is the uploaded buffer. -/
theorem full_variant_resized_iff_exceeds_witness :
    sampleEnv.fileTypeFromBuffer 0 icon.buffer = .ok (some ⟨"png", "image/png"⟩) ∧
    startsWithImage (FileTypeResult.mk "png" "image/png").mime = true ∧
    sampleEnv.sharpMetadata 0 icon.buffer = .ok ⟨some 640, some 480⟩ ∧
    fileStepsOk sampleEnv 0 icon = true ∧
    ((needsResize ⟨some 640, some 480⟩ = true ↔
      ((∃ w, (SharpMetadata.mk (some 640) (some 480)).width = some w ∧ 2000 < w) ∨
        (∃ h, (SharpMetadata.mk (some 640) (some 480)).height = some h ∧ 2000 < h))) ∧
    (processFile sampleEnv 0 icon (.array []) emptyDisk).1.files =
      (THUMB_DIR ++ "/" ++ ("thumb-" ++ storedName sampleEnv 0 ⟨"png", "image/png"⟩),
          Content.resizedCover icon.buffer 300 300) ::
        (UPLOAD_DIR ++ "/" ++ storedName sampleEnv 0 ⟨"png", "image/png"⟩,
          if needsResize ⟨some 640, some 480⟩ then Content.resizedInside icon.buffer 2000 2000
          else Content.raw icon.buffer) :: emptyDisk.files) :=
  ⟨rfl, by decide, rfl, by decide,
    full_variant_resized_iff_exceeds sampleEnv 0 icon (.array []) emptyDisk
      ⟨"png", "image/png"⟩ ⟨some 640, some 480⟩ rfl (by decide) rfl (by decide)⟩

/-- C6 (as stated) fails: when the decoder reports a width of 800 and no
height, the record the handler persists has a width and no height. -/
theorem record_dimensions_both_or_neither_counterexample :
    (postUpload widthOnlyEnv emptyDisk (some [photo])).1.status = 200 ∧
    (postUpload widthOnlyEnv emptyDisk (some [photo])).2.ledger.records.map
      (fun r => (r.width, r.height)) = [(some 800, none)] := by
  decide

/-- C6 (as amended): in a record the handler builds, the width is present
exactly when the decoder reported a non-zero width and the height is present
exactly when the decoder reported a non-zero height; so the two are both
present or both absent exactly when the decoder reported both dimensions
(non-zero) or neither. -/
theorem record_dimensions_follow_decoder (env : Env) (i : Nat) (f : UploadFile)
    (ft : FileTypeResult) (m : SharpMetadata) :
    ((buildRecord env i f ft m).width.isSome = true ↔ ∃ w, m.width = some w ∧ w ≠ 0) ∧
    ((buildRecord env i f ft m).height.isSome = true ↔ ∃ h, m.height = some h ∧ h ≠ 0) ∧
    (((buildRecord env i f ft m).width.isSome = (buildRecord env i f ft m).height.isSome) ↔
      ((∃ w, m.width = some w ∧ w ≠ 0) ↔ (∃ h, m.height = some h ∧ h ≠ 0))) := by
  have hw := orNull_isSome_iff m.width
  have hh := orNull_isSome_iff m.height
  refine ⟨hw, hh, ?_⟩
  show ((orNull m.width).isSome = (orNull m.height).isSome) ↔ _
  rw [← hw, ← hh]
  cases (orNull m.width).isSome <;> cases (orNull m.height).isSome <;> simp

/-- C8: the record built for an accepted file carries the size multer reports
for the uploaded payload and the width and height the decoder reported for
the uploaded buffer (pixel dimensions, when reported, being positive); this
holds whichever branch stores the full-size variant, since the record is not
computed from the stored file. -/
theorem record_describes_original_payload (env : Env) (i : Nat) (f : UploadFile)
    (rs : List UploadRecord) (disk : Disk) (ft : FileTypeResult) (m : SharpMetadata)
    (h1 : env.fileTypeFromBuffer i f.buffer = .ok (some ft))
    (h2 : startsWithImage ft.mime = true)
    (h3 : env.sharpMetadata i f.buffer = .ok m)
    (hok : fileStepsOk env i f = true)
    (hw : ∀ w, m.width = some w → 0 < w)
    (hh : ∀ h, m.height = some h → 0 < h) :
    ∃ d1 r, processFile env i f (.array rs) disk = (d1, .ok (.array (r :: rs))) ∧
      r.size = f.size ∧ r.width = m.width ∧ r.height = m.height := by
  obtain ⟨m1, d1, hm1, hp⟩ :=
    processFile_accept env i f (.array rs) disk ft (sniffedImage_of env i f ft h1 h2) hok
  rw [h3] at hm1
  cases hm1
  exact ⟨d1, buildRecord env i f ft m, hp, rfl, orNull_of_pos m.width hw,
    orNull_of_pos m.height hh⟩

/-- C8, on the photo of 4000 x 3000, whose full-size variant goes through the
resize path: the record keeps 4000 x 3000 and the size of the upload. -/
theorem record_describes_original_payload_witness :
    sampleEnv.fileTypeFromBuffer 0 photo.buffer = .ok (some ⟨"jpg", "image/jpeg"⟩) ∧
    startsWithImage (FileTypeResult.mk "jpg" "image/jpeg").mime = true ∧
    sampleEnv.sharpMetadata 0 photo.buffer = .ok ⟨some 4000, some 3000⟩ ∧
    fileStepsOk sampleEnv 0 photo = true ∧
    needsResize ⟨some 4000, some 3000⟩ = true ∧
    ∃ d1 r, processFile sampleEnv 0 photo (.array []) emptyDisk = (d1, .ok (.array (r :: []))) ∧
      r.size = photo.size ∧ r.width = (SharpMetadata.mk (some 4000) (some 3000)).width ∧
      r.height = (SharpMetadata.mk (some 4000) (some 3000)).height :=
  ⟨rfl, by decide, rfl, by decide, by decide,
    record_describes_original_payload sampleEnv 0 photo [] emptyDisk ⟨"jpg", "image/jpeg"⟩
      ⟨some 4000, some 3000⟩ rfl (by decide) rfl (by decide)
      (by intro w h; cases h; decide) (by intro w h; cases h; decide)⟩

/-- C7 (as amended): for an image whose width or height exceeds 2000, the
dimensions of the variant fitted inside 2000 x 2000 have their larger one equal
to 2000 and their smaller one at least 1 and at most 2000; when the original
larger dimension is at most 4000 times the smaller one, the aspect ratio is the
original one up to the rounding of the smaller dimension (the cross products
differ by at most half the original larger dimension); for a more elongated
image the smaller dimension is 1. -/
theorem resizeInside_larger_is_bound (w h : Nat) (hbig : maxDim < w ∨ maxDim < h) :
    max (resizeInside maxDim w h).1 (resizeInside maxDim w h).2 = maxDim ∧
    1 ≤ min (resizeInside maxDim w h).1 (resizeInside maxDim w h).2 ∧
    min (resizeInside maxDim w h).1 (resizeInside maxDim w h).2 ≤ maxDim ∧
    (max w h ≤ 2 * maxDim * min w h →
      2 * ((resizeInside maxDim w h).2 * w) ≤
        2 * ((resizeInside maxDim w h).1 * h) + max w h ∧
      2 * ((resizeInside maxDim w h).1 * h) ≤
        2 * ((resizeInside maxDim w h).2 * w) + max w h) ∧
    (2 * maxDim * min w h < max w h →
      min (resizeInside maxDim w h).1 (resizeInside maxDim w h).2 = 1) := by
  have hnot : ¬ (w ≤ maxDim ∧ h ≤ maxDim) := by
    intro hc
    omega
  have hmd : max 1 maxDim = maxDim := by decide
  unfold resizeInside
  rw [if_neg hnot]
  by_cases hwh : h ≤ w
  · have hw : 0 < w := by
      rcases hbig with hb | hb <;> omega
    rw [if_pos hwh]
    simp only []
    rw [roundDiv_self_mul w maxDim hw, hmd]
    have hle := roundDiv_mul_le h w maxDim hw hwh
    obtain ⟨hb1, hb2⟩ := roundDiv_bounds (h * maxDim) w hw
    generalize roundDiv (h * maxDim) w = q at hle hb1 hb2 ⊢
    have hq1 : max 1 q ≤ maxDim := max_le (by decide) hle
    rw [max_eq_left hwh, min_eq_right hwh, max_eq_left hq1, min_eq_right hq1]
    refine ⟨rfl, le_max_left 1 q, hq1, ?_, ?_⟩
    · intro hr
      have hq : 1 ≤ q := by
        by_contra hc
        have hz : q = 0 := by omega
        subst hz
        simp only [maxDim] at hr hb2
        omega
      rw [max_eq_right hq, Nat.mul_comm maxDim h]
      exact ⟨hb1, by omega⟩
    · intro hr
      have hq : q = 0 := by
        by_contra hc
        have h1 : w ≤ q * w := Nat.le_mul_of_pos_left w (by omega)
        simp only [maxDim] at hr hb1
        omega
      rw [hq]
      rfl
  · have hhw : w ≤ h := by omega
    have hh : 0 < h := by
      rcases hbig with hb | hb <;> omega
    rw [if_neg hwh]
    simp only []
    rw [roundDiv_self_mul h maxDim hh, hmd]
    have hle := roundDiv_mul_le w h maxDim hh hhw
    obtain ⟨hb1, hb2⟩ := roundDiv_bounds (w * maxDim) h hh
    generalize roundDiv (w * maxDim) h = q at hle hb1 hb2 ⊢
    have hq1 : max 1 q ≤ maxDim := max_le (by decide) hle
    rw [max_eq_right hhw, min_eq_left hhw, max_eq_right hq1, min_eq_left hq1]
    refine ⟨rfl, le_max_left 1 q, hq1, ?_, ?_⟩
    · intro hr
      have hq : 1 ≤ q := by
        by_contra hc
        have hz : q = 0 := by omega
        subst hz
        simp only [maxDim] at hr hb2
        omega
      rw [max_eq_right hq, Nat.mul_comm maxDim w]
      exact ⟨by omega, hb1⟩
    · intro hr
      have hq : q = 0 := by
        by_contra hc
        have h1 : h ≤ q * h := Nat.le_mul_of_pos_left h (by omega)
        simp only [maxDim] at hr hb1
        omega
      rw [hq]
      rfl

/-- C7 (as amended), on an image of 4000 x 3000, which becomes 2000 x 1500. -/
theorem resizeInside_larger_is_bound_witness :
    (maxDim < 4000 ∨ maxDim < 3000) ∧
    resizeInside maxDim 4000 3000 = (2000, 1500) ∧
    (max (resizeInside maxDim 4000 3000).1 (resizeInside maxDim 4000 3000).2 = maxDim ∧
    1 ≤ min (resizeInside maxDim 4000 3000).1 (resizeInside maxDim 4000 3000).2 ∧
    min (resizeInside maxDim 4000 3000).1 (resizeInside maxDim 4000 3000).2 ≤ maxDim ∧
    (max 4000 3000 ≤ 2 * maxDim * min 4000 3000 →
      2 * ((resizeInside maxDim 4000 3000).2 * 4000) ≤
        2 * ((resizeInside maxDim 4000 3000).1 * 3000) + max 4000 3000 ∧
      2 * ((resizeInside maxDim 4000 3000).1 * 3000) ≤
        2 * ((resizeInside maxDim 4000 3000).2 * 4000) + max 4000 3000) ∧
    (2 * maxDim * min 4000 3000 < max 4000 3000 →
      min (resizeInside maxDim 4000 3000).1 (resizeInside maxDim 4000 3000).2 = 1)) :=
  ⟨by decide, by decide, resizeInside_larger_is_bound 4000 3000 (by decide)⟩

/-- C7 (as stated) fails: an image of 5000 x 1 becomes 2000 x 1, the height
being kept at one pixel where the scaled height is 0.4 pixel; the cross
products 1 x 5000 and 2000 x 1 differ by more than half of 5000, so the aspect
ratio is not the original one up to rounding. -/
theorem resize_aspect_within_rounding_counterexample :
    maxDim < 5000 ∧
    resizeInside maxDim 5000 1 = (2000, 1) ∧
    ¬ (2 * ((resizeInside maxDim 5000 1).2 * 5000) ≤
      2 * ((resizeInside maxDim 5000 1).1 * 1) + max 5000 1) := by
  decide

end ImageUpload
